import Mathlib

/-!
Verification of the zonefmt zone-file formatter (`main.go`).

The program is shallowly embedded: strings are lists of characters
(`Str`), the record parser's regular expression
`^(\S+)\s+(?:([0-9]+)\s+)?(\S+)\s+(\S+)\s+(.*)$` is embedded as the
deterministic matcher it denotes under Go's leftmost-first semantics,
and Go runtime behaviours are distinguished by the `GoResult` type
(`ok` / returned `error` / runtime panic).
-/

namespace Zonefmt

/-- Go strings viewed as character sequences. -/
abbrev Str := List Char

/-- Outcome of running a piece of Go code: a value, a returned `error`,
or a runtime panic (e.g. an index-out-of-range on a nil slice). -/
inductive GoResult (α : Type) where
  | ok : α → GoResult α
  | err : GoResult α
  | panic : GoResult α
deriving DecidableEq, Repr

/-- The character class `\s` of Go's `regexp` package: `[\t\n\f\r ]`. -/
def isGoSpace (c : Char) : Bool :=
  (c == ' ') || (c == '\t') || (c == '\n') || (c == Char.ofNat 12) || (c == '\r')

/-- The character class `\S` (complement of `isGoSpace`). -/
def notSpace (c : Char) : Bool := !(isGoSpace c)

/-- Numeric value of a decimal digit string (as parsed by
`strconv.ParseInt` on a `[0-9]+` match, ignoring overflow). -/
def digitsVal (s : Str) : Nat :=
  s.foldl (fun a c => a * 10 + (c.toNat - 48)) 0

/-- `math.MaxInt64`: `strconv.ParseInt(_, 10, 64)` errors above this. -/
def int64Max : Nat := 9223372036854775807

/-- The `record` struct of `main.go` (`Type` is spelled `Typ`, since
`Type` is reserved in Lean). -/
structure record where
  Name : Str
  TTL : Int
  Class : Str
  Typ : Str
  Data : Str
deriving DecidableEq, Repr

/-- The built-in sort-priority table `sorting` before any overrides:
`SOA=0, NS=10, MX=20`. -/
def defaultSorting : List (Str × Nat) :=
  [("SOA".data, 0), ("NS".data, 10), ("MX".data, 20)]

/-- Priority lookup used by `records.Less`: the table value when the
type is present, otherwise the default score 100 (decided at lookup
time). -/
def score (tbl : List (Str × Nat)) (ty : Str) : Nat :=
  match tbl.find? (fun p => decide (p.1 = ty)) with
  | some p => p.2
  | none => 100

/-- Go's `<` on strings: lexicographic byte order (on valid UTF-8 text
byte order coincides with this character-code order). -/
def goStrLt : Str → Str → Bool
  | [], [] => false
  | [], _ :: _ => true
  | _ :: _, [] => false
  | a :: as, b :: bs =>
    if a.toNat < b.toNat then true
    else if b.toNat < a.toNat then false
    else goStrLt as bs

/-- The comparator `records.Less` of `main.go`, parameterised by the
priority table: compare scores when they differ, otherwise names. -/
def recLess (tbl : List (Str × Nat)) (a b : record) : Bool :=
  if score tbl a.Typ = score tbl b.Typ then goStrLt a.Name b.Name
  else decide (score tbl a.Typ < score tbl b.Typ)

/-- `sort.Sort(records(rr))`: a comparison sort driven by
`records.Less`.  Go's algorithm leaves the relative order of fully
tied elements unspecified; it is modelled as the stable insertion
sort over the same comparator. -/
def sortRecords (tbl : List (Str × Nat)) (rr : List record) : List record :=
  rr.insertionSort (fun a b => recLess tbl b a = false)

/-- Fuel-driven accumulator loop producing the decimal digits of `n`
in front of `acc`; the fuel only guides structural recursion and is
always sufficient when it exceeds `n`. -/
def natDigitsCore : Nat → Nat → Str → Str
  | 0, _, acc => acc
  | fuel + 1, n, acc =>
    if n < 10 then Nat.digitChar n :: acc
    else natDigitsCore fuel (n / 10) (Nat.digitChar (n % 10) :: acc)

/-- Decimal digits of a natural number, as printed by `fmt` `%d`. -/
def natDigits (n : Nat) : Str := natDigitsCore (n + 1) n []

/-- `fmt` `%d` on a Go `int`. -/
def intToStr (i : Int) : Str :=
  if i < 0 then '-' :: natDigits i.natAbs else natDigits i.toNat

/-- Right-justification to width `w` (`%5d` padding). -/
def padLeft (w : Nat) (s : Str) : Str :=
  List.replicate (w - s.length) ' ' ++ s

/-- Left-justification to width `w` (`%-Ns` padding). -/
def padRight (s : Str) (w : Nat) : Str :=
  s ++ List.replicate (w - s.length) ' '

/-- One output line without its terminating newline:
`%-<w>s %5d %s %-5s %s`. -/
def renderCore (w : Nat) (r : record) : Str :=
  padRight r.Name w ++ ' ' :: padLeft 5 (intToStr r.TTL) ++
    ' ' :: r.Class ++ ' ' :: padRight r.Typ 5 ++ ' ' :: r.Data

/-- One full output line of the render loop, newline-terminated. -/
def renderLine (w : Nat) (r : record) : Str :=
  renderCore w r ++ ['\n']

/-- `maxLen` of the render stage: maximum name length (0 when empty). -/
def maxNameLen (rr : List record) : Nat :=
  rr.foldl (fun m r => max m r.Name.length) 0

/-- The render loop of `formatZone`: the concatenation of one
formatted line per record. -/
def render (rr : List record) : Str :=
  (rr.map (renderLine (maxNameLen rr))).flatten

/-- Raw newline-splitting underlying `bufio.ScanLines`: pieces between
`\n` characters, with no empty final piece for a trailing newline. -/
def splitNL (s : Str) : List Str :=
  s.foldr
    (fun c acc =>
      if c = '\n' then [] :: acc
      else
        match acc with
        | [] => [[c]]
        | l :: ls => (c :: l) :: ls)
    []

/-- `dropCR` of `bufio.ScanLines`: strip one trailing `\r`. -/
def dropCR (l : Str) : Str :=
  if l.getLast? = some '\r' then l.dropLast else l

/-- The line sequence produced by `bufio.NewScanner(...).Scan()`. -/
def goLines (s : Str) : List Str := (splitNL s).map dropCR

/-- `strings.SplitN(line, " ", 2)`: the part before the first space
character, and — when a space exists — everything after it. -/
def splitNSpace (s : Str) : Str × Option Str :=
  match s.dropWhile (fun c => !(c == ' ')) with
  | [] => (s.takeWhile (fun c => !(c == ' ')), none)
  | _ :: rest => (s.takeWhile (fun c => !(c == ' ')), some rest)

/-- Tail of the record regex, `(\S+)\s+(\S+)\s+(.*)$`: class token,
type token, and the free-form remainder after the following
whitespace run. -/
def matchTail (s : Str) : Option (Str × Str × Str) :=
  let cls := s.takeWhile notSpace
  let r1 := s.dropWhile notSpace
  if cls = [] then none
  else
    let w1 := r1.takeWhile isGoSpace
    let r2 := r1.dropWhile isGoSpace
    if w1 = [] then none
    else
      let ty := r2.takeWhile notSpace
      let r3 := r2.dropWhile notSpace
      if ty = [] then none
      else
        let w2 := r3.takeWhile isGoSpace
        let r4 := r3.dropWhile isGoSpace
        if w2 = [] then none else some (cls, ty, r4)

/-- The full record regex
`^(\S+)\s+(?:([0-9]+)\s+)?(\S+)\s+(\S+)\s+(.*)$` under Go's
leftmost-first semantics: the greedy optional TTL group is tried
first and abandoned only if the rest of the pattern cannot match.
Returns the five submatches; the second is `[]` when the TTL group
did not participate (Go's empty `matches[2]`). -/
def rexMatch (line : Str) : Option (Str × Str × Str × Str × Str) :=
  let t1 := line.takeWhile notSpace
  let r1 := line.dropWhile notSpace
  if t1 = [] then none
  else
    let w1 := r1.takeWhile isGoSpace
    let r2 := r1.dropWhile isGoSpace
    if w1 = [] then none
    else
      let d := r2.takeWhile (fun c => c.isDigit)
      let rd := r2.dropWhile (fun c => c.isDigit)
      let ttlTry : Option (Str × Str × Str) :=
        if d = [] then none
        else if rd.takeWhile isGoSpace = [] then none
        else matchTail (rd.dropWhile isGoSpace)
      match ttlTry with
      | some (cls, ty, da) => some (t1, d, cls, ty, da)
      | none =>
        match matchTail r2 with
        | some (cls, ty, da) => some (t1, [], cls, ty, da)
        | none => none

/-- Lower-case hexadecimal digit. -/
def hexDigit (n : Nat) : Char :=
  if n < 10 then Nat.digitChar n
  else if n = 10 then 'a' else if n = 11 then 'b' else if n = 12 then 'c'
  else if n = 13 then 'd' else if n = 14 then 'e' else 'f'

/-- Quoting of one character inside Go's `strconv.Quote` (hence
`fmt` `%q`): `"` and `\` get a backslash, printable ASCII is kept,
control characters use the named or `\xhh` escapes.  (Printable
non-ASCII runes are kept verbatim, as Go does; the finer non-ASCII
cases do not arise in this development.) -/
def quoteChar (c : Char) : Str :=
  if c = '"' then ['\\', '"']
  else if c = '\\' then ['\\', '\\']
  else if 32 ≤ c.toNat ∧ c.toNat ≤ 126 then [c]
  else if c.toNat = 7 then ['\\', 'a']
  else if c.toNat = 8 then ['\\', 'b']
  else if c.toNat = 12 then ['\\', 'f']
  else if c.toNat = 10 then ['\\', 'n']
  else if c.toNat = 13 then ['\\', 'r']
  else if c.toNat = 9 then ['\\', 't']
  else if c.toNat = 11 then ['\\', 'v']
  else if c.toNat < 32 ∨ c.toNat = 127 then
    ['\\', 'x', hexDigit (c.toNat / 16), hexDigit (c.toNat % 16)]
  else [c]

/-- `fmt.Sprintf("%q", s)`: the double-quoted Go representation of
`s`, escaping as `quoteChar` does. -/
def goQuote (s : Str) : Str :=
  '"' :: s.foldr (fun c acc => quoteChar c ++ acc) ['"']

/-- The name-resolution steps of `parseRecord`: `@` becomes the empty
name, then a name not ending in `.` is
`strings.TrimLeft(strings.Join([]string{name, zone}, "."), ".")`,
a name already ending in `.` is kept as-is. -/
def resolveName (m1 zone : Str) : Str :=
  let name1 := if m1 = ['@'] then [] else m1
  if name1.getLast? = some '.' then name1
  else (name1 ++ '.' :: zone).dropWhile (fun c => c == '.')

/-- The TTL-resolution step of `parseRecord`:
`if rec.TTL == 0 { rec.TTL = defaultTTL }`. -/
def resolveTTL (ttl dttl : Int) : Int :=
  if ttl = 0 then dttl else ttl

/-- The TXT post-processing step of `parseRecord`:
`if rec.Type == "TXT" && rec.Data[0] != '"' { rec.Data = fmt.Sprintf("%q", rec.Data) }`.
Indexing `rec.Data[0]` on an empty data field is a runtime panic. -/
def txtData (m4 m5 : Str) : GoResult Str :=
  if m4 = "TXT".data then
    match m5 with
    | [] => .panic
    | c :: _ => .ok (if c = '"' then m5 else goQuote m5)
  else .ok m5

/-- `parseRecord(line, defaultZone, defaultTTL)` of `main.go`.
`FindStringSubmatch` returning nil makes the subsequent `matches[2]`
index a nil slice: a runtime panic.  A `ParseInt` overflow (the match
group is `[0-9]+`, so overflow is the only possible `ParseInt`
failure) is the only returned error. -/
def parseRecord (line defaultZone : Str) (defaultTTL : Int) : GoResult record :=
  match rexMatch line with
  | none => .panic
  | some (m1, m2, m3, m4, m5) =>
    if m2 ≠ [] ∧ digitsVal m2 > int64Max then .err
    else
      match txtData m4 m5 with
      | .panic => .panic
      | .err => .err
      | .ok d =>
        .ok { Name := resolveName m1 defaultZone,
              TTL := resolveTTL (if m2 = [] then defaultTTL else (digitsVal m2 : Int)) defaultTTL,
              Class := m3, Typ := m4, Data := d }

/-- One iteration of the scan loop of `formatZone` on a single
scanned line: `line[0] == '$'` dispatches to the directive handling
(`$ORIGIN` sets the origin, `$TTL` consults the duration parser and
aborts the file on its error, anything else is logged and skipped),
any other line goes through `parseRecord` (a parse error drops the
line, a successful record is appended).  `pd` models
`arg ↦ int(time.ParseDuration(arg).Seconds())`: `none` when
`time.ParseDuration` returns an error, otherwise the duration's
(truncated) integer second value. -/
def scanStep (pd : Str → Option Int) (zone : Str) (ttl : Int)
    (rr : List record) (line : Str) : GoResult (Str × Int × List record) :=
  match line with
  | [] => .panic
  | c :: _ =>
    if c = '$' then
      match splitNSpace line with
      | (kw, arg?) =>
        if kw = "$ORIGIN".data then
          match arg? with
          | none => .panic
          | some a => .ok (a, ttl, rr)
        else if kw = "$TTL".data then
          match arg? with
          | none => .panic
          | some a =>
            match pd a with
            | none => .err
            | some v => .ok (zone, v, rr)
        else .ok (zone, ttl, rr)
    else
      match parseRecord line zone ttl with
      | .panic => .panic
      | .err => .ok (zone, ttl, rr)
      | .ok r => .ok (zone, ttl, rr ++ [r])

/-- The scan loop of `formatZone`: `scanStep` folded over the scanned
lines, a returned error or panic aborting the loop. -/
def scanLoop (pd : Str → Option Int) (zone : Str) (ttl : Int)
    (rr : List record) : List Str → GoResult (Str × Int × List record)
  | [] => .ok (zone, ttl, rr)
  | line :: rest =>
    match scanStep pd zone ttl rr line with
    | .ok (z, t, r) => scanLoop pd z t r rest
    | .err => .err
    | .panic => .panic

/-- The parse stage of `formatZone`: the record list collected by the
scan loop from the empty initial context. -/
def parseAll (pd : Str → Option Int) (input : Str) : GoResult (List record) :=
  match scanLoop pd [] 0 [] (goLines input) with
  | .ok (_, _, rr) => .ok rr
  | .err => .err
  | .panic => .panic

/-- `formatZone` of `main.go`: scan all lines, sort the collected
records, render; any scan error aborts with no output. -/
def formatZone (tbl : List (Str × Nat)) (pd : Str → Option Int)
    (input : Str) : GoResult Str :=
  match parseAll pd input with
  | .ok rr => .ok (render (sortRecords tbl rr))
  | .err => .err
  | .panic => .panic

/-- A nonempty token containing no `\s` characters (what a `(\S+)`
submatch always is). -/
def tokenOK (s : Str) : Prop :=
  s ≠ [] ∧ ∀ c ∈ s, notSpace c = true

/-- Records whose rendered line parses back to the record itself when
re-scanned with the empty origin / zero TTL context: name a
non-directive fully-qualified token, TTL a printable `int64`
value, class and type plain tokens, data free of newlines, with no
leading whitespace, no trailing carriage return, and already quoted
when the type is `TXT`. -/
def goodRec (r : record) : Prop :=
  tokenOK r.Name ∧ r.Name.getLast? = some '.' ∧ r.Name.head? ≠ some '$' ∧
  0 ≤ r.TTL ∧ r.TTL ≤ (int64Max : Int) ∧
  tokenOK r.Class ∧ tokenOK r.Typ ∧
  (∀ c ∈ r.Data, c ≠ '\n') ∧ r.Data.getLast? ≠ some '\r' ∧
  r.Data.head?.all (fun c => !isGoSpace c) = true ∧
  (r.Typ = "TXT".data → r.Data.head? = some '"')

instance : DecidablePred goodRec := fun r => by
  unfold goodRec tokenOK
  infer_instance

/-- A duration parser that rejects every argument (usable wherever no
`$TTL` directive is reached). -/
def pdNone : Str → Option Int := fun _ => none

/-- A sample duration parser accepting only `1h` (3600 seconds). -/
def pdOneHour : Str → Option Int :=
  fun s => if s = "1h".data then some 3600 else none

/-! ### Token and whitespace lemmas -/

theorem takeWhile_tok (p : Char → Bool) (t b : Str) (ht : ∀ c ∈ t, p c = true)
    (hb : ∀ c, b.head? = some c → p c = false) : (t ++ b).takeWhile p = t := by
  induction t with
  | nil =>
    cases b with
    | nil => rfl
    | cons c bs => simp [List.takeWhile_cons, hb c rfl]
  | cons a t ih =>
    have hpa : p a = true := ht a (List.mem_cons_self a t)
    simp only [List.cons_append, List.takeWhile_cons, hpa, if_true]
    rw [ih (fun c hc => ht c (List.mem_cons_of_mem a hc))]

theorem dropWhile_tok (p : Char → Bool) (t b : Str) (ht : ∀ c ∈ t, p c = true)
    (hb : ∀ c, b.head? = some c → p c = false) : (t ++ b).dropWhile p = b := by
  induction t with
  | nil =>
    cases b with
    | nil => rfl
    | cons c bs => simp [List.dropWhile_cons, hb c rfl]
  | cons a t ih =>
    have hpa : p a = true := ht a (List.mem_cons_self a t)
    simp only [List.cons_append, List.dropWhile_cons, hpa, if_true]
    exact ih (fun c hc => ht c (List.mem_cons_of_mem a hc))

theorem dropWhile_head_false (p : Char → Bool) (b : Str)
    (hb : ∀ c, b.head? = some c → p c = false) : b.dropWhile p = b := by
  cases b with
  | nil => rfl
  | cons c bs => simp [List.dropWhile_cons, hb c rfl]

theorem beq_false_of_isDigit {c d : Char} (h : c.isDigit = true)
    (hd : d.isDigit = false) : (c == d) = false := by
  cases hc : c == d
  · rfl
  · rw [eq_of_beq hc] at h
    rw [h] at hd
    exact absurd hd (by simp)

theorem isGoSpace_eq_false_of_isDigit {c : Char} (h : c.isDigit = true) :
    isGoSpace c = false := by
  unfold isGoSpace
  rw [beq_false_of_isDigit h (by decide), beq_false_of_isDigit h (by decide),
    beq_false_of_isDigit h (by decide), beq_false_of_isDigit h (by decide),
    beq_false_of_isDigit h (by decide)]
  rfl

theorem notSpace_of_isDigit {c : Char} (h : c.isDigit = true) : notSpace c = true := by
  unfold notSpace
  rw [isGoSpace_eq_false_of_isDigit h]
  rfl

theorem isGoSpace_of_mem_sp {n : Nat} {c : Char} (h : c ∈ List.replicate n ' ') :
    isGoSpace c = true := by
  rw [List.eq_of_mem_replicate h]
  decide

/-! ### Decimal printing lemmas -/

theorem digitChar_isDigit : ∀ m, m < 10 → (Nat.digitChar m).isDigit = true := by decide

theorem digitChar_toNat : ∀ m, m < 10 → (Nat.digitChar m).toNat = 48 + m := by decide

theorem natDigitsCore_shift :
    ∀ (fuel n : Nat) (acc : Str), n < fuel →
      natDigitsCore fuel n acc = natDigitsCore (n + 1) n [] ++ acc := by
  intro fuel
  induction fuel using Nat.strong_induction_on with
  | _ fuel ih =>
    intro n acc hlt
    cases fuel with
    | zero => omega
    | succ f =>
      by_cases h : n < 10
      · simp [natDigitsCore, h]
      · have hdiv : n / 10 < n := Nat.div_lt_self (by omega) (by omega)
        simp only [natDigitsCore, if_neg h]
        rw [ih f (by omega) (n / 10) _ (by omega),
          ih n (by omega) (n / 10) _ hdiv,
          List.append_assoc]
        rfl

theorem natDigits_unfold (n : Nat) :
    natDigits n = if n < 10 then [Nat.digitChar n]
      else natDigits (n / 10) ++ [Nat.digitChar (n % 10)] := by
  unfold natDigits
  by_cases h : n < 10
  · simp [natDigitsCore, h]
  · simp only [natDigitsCore, if_neg h]
    exact natDigitsCore_shift n (n / 10) _ (Nat.div_lt_self (by omega) (by omega))

theorem natDigits_ne_nil (n : Nat) : natDigits n ≠ [] := by
  rw [natDigits_unfold]
  split <;> simp

theorem natDigits_all_digit (n : Nat) : ∀ c ∈ natDigits n, c.isDigit = true := by
  induction n using Nat.strong_induction_on with
  | _ n ih =>
    rw [natDigits_unfold]
    split
    · next h =>
      intro c hc
      rw [List.mem_singleton] at hc
      subst hc
      exact digitChar_isDigit n h
    · next h =>
      intro c hc
      rw [List.mem_append] at hc
      rcases hc with hc | hc
      · exact ih (n / 10) (Nat.div_lt_self (by omega) (by omega)) c hc
      · rw [List.mem_singleton] at hc
        subst hc
        exact digitChar_isDigit (n % 10) (Nat.mod_lt _ (by omega))

theorem digitsVal_append_digit (xs : Str) (c : Char) :
    digitsVal (xs ++ [c]) = digitsVal xs * 10 + (c.toNat - 48) := by
  unfold digitsVal
  rw [List.foldl_append]
  rfl

theorem digitsVal_natDigits (n : Nat) : digitsVal (natDigits n) = n := by
  induction n using Nat.strong_induction_on with
  | _ n ih =>
    rw [natDigits_unfold]
    split
    · next h =>
      show (0 * 10 + ((Nat.digitChar n).toNat - 48)) = n
      rw [digitChar_toNat n h]
      omega
    · next h =>
      rw [digitsVal_append_digit,
        ih (n / 10) (Nat.div_lt_self (by omega) (by omega)),
        digitChar_toNat (n % 10) (Nat.mod_lt _ (by omega))]
      omega

/-! ### Byte-order string comparison lemmas -/

theorem goStrLt_asymm : ∀ a b : Str, goStrLt a b = true → goStrLt b a = false := by
  intro a
  induction a with
  | nil =>
    intro b h
    cases b with
    | nil => simp [goStrLt] at h
    | cons y ys => simp [goStrLt]
  | cons x xs ih =>
    intro b h
    cases b with
    | nil => simp [goStrLt] at h
    | cons y ys =>
      simp only [goStrLt] at h ⊢
      by_cases h1 : x.toNat < y.toNat
      · have h2 : ¬ y.toNat < x.toNat := by omega
        simp [h1, h2]
      · by_cases h2 : y.toNat < x.toNat
        · simp [h1, h2] at h
        · simp only [if_neg h1, if_neg h2] at h
          simp only [if_neg h1, if_neg h2]
          exact ih ys h

theorem goStrLt_nlt_trans :
    ∀ a b c : Str, goStrLt a b = false → goStrLt b c = false → goStrLt a c = false := by
  intro a
  induction a with
  | nil =>
    intro b c hab hbc
    cases b with
    | nil =>
      cases c with
      | nil => rfl
      | cons z zs => simp [goStrLt] at hbc
    | cons y ys => simp [goStrLt] at hab
  | cons x xs ih =>
    intro b c hab hbc
    cases b with
    | nil =>
      cases c with
      | nil => rfl
      | cons z zs => simp [goStrLt] at hbc
    | cons y ys =>
      cases c with
      | nil => simp [goStrLt]
      | cons z zs =>
        simp only [goStrLt] at hab hbc ⊢
        by_cases h1 : x.toNat < y.toNat
        · simp [h1] at hab
        · by_cases h2 : y.toNat < z.toNat
          · simp [h2] at hbc
          · by_cases h5 : y.toNat < x.toNat
            · have h3 : ¬ x.toNat < z.toNat := by omega
              have h4 : z.toNat < x.toNat := by omega
              simp [h3, h4]
            · by_cases h6 : z.toNat < y.toNat
              · have h3 : ¬ x.toNat < z.toNat := by omega
                have h4 : z.toNat < x.toNat := by omega
                simp [h3, h4]
              · have h3 : ¬ x.toNat < z.toNat := by omega
                have h4 : ¬ z.toNat < x.toNat := by omega
                simp only [if_neg h1, if_neg h5] at hab
                simp only [if_neg h2, if_neg h6] at hbc
                simp only [if_neg h3, if_neg h4]
                exact ih ys zs hab hbc

/-! ### Comparator lemmas -/

theorem recLess_false_iff (tbl : List (Str × Nat)) (a b : record) :
    recLess tbl a b = false ↔
      (score tbl b.Typ < score tbl a.Typ ∨
        (score tbl a.Typ = score tbl b.Typ ∧ goStrLt a.Name b.Name = false)) := by
  unfold recLess
  by_cases h : score tbl a.Typ = score tbl b.Typ
  · simp [h]
  · simp only [if_neg h, decide_eq_false_iff_not]
    constructor
    · intro hn
      left
      omega
    · intro hn
      rcases hn with hn | ⟨he, _⟩
      · omega
      · exact absurd he h

theorem recLess_asymm (tbl : List (Str × Nat)) (a b : record)
    (h : recLess tbl a b = true) : recLess tbl b a = false := by
  unfold recLess at h ⊢
  by_cases hs : score tbl a.Typ = score tbl b.Typ
  · rw [if_pos hs] at h
    rw [if_pos hs.symm]
    exact goStrLt_asymm _ _ h
  · rw [if_neg hs] at h
    rw [decide_eq_true_eq] at h
    rw [if_neg (fun e => hs e.symm), decide_eq_false_iff_not]
    omega

theorem relTotal (tbl : List (Str × Nat)) :
    ∀ a b : record, recLess tbl b a = false ∨ recLess tbl a b = false := by
  intro a b
  rcases Bool.eq_false_or_eq_true (recLess tbl b a) with h | h
  · exact Or.inr (recLess_asymm tbl b a h)
  · exact Or.inl h

theorem relTrans (tbl : List (Str × Nat)) :
    ∀ a b c : record, recLess tbl b a = false → recLess tbl c b = false →
      recLess tbl c a = false := by
  intro a b c hab hbc
  rw [recLess_false_iff] at hab hbc ⊢
  rcases hab with hab | ⟨hab1, hab2⟩
  · rcases hbc with hbc | ⟨hbc1, hbc2⟩
    · exact Or.inl (lt_trans hab hbc)
    · exact Or.inl (by omega)
  · rcases hbc with hbc | ⟨hbc1, hbc2⟩
    · exact Or.inl (by omega)
    · exact Or.inr ⟨by omega, goStrLt_nlt_trans _ _ _ hbc2 hab2⟩

/-! ### Scan-loop composition lemmas -/

theorem scanLoop_append (pd : Str → Option Int) (zone : Str) (ttl : Int)
    (rr : List record) (xs ys : List Str) :
    scanLoop pd zone ttl rr (xs ++ ys) =
      match scanLoop pd zone ttl rr xs with
      | .ok (z, t, r) => scanLoop pd z t r ys
      | .err => .err
      | .panic => .panic := by
  induction xs generalizing zone ttl rr with
  | nil => rfl
  | cons l ls ih =>
    simp only [List.cons_append, scanLoop]
    cases h : scanStep pd zone ttl rr l with
    | ok s =>
      obtain ⟨z, t, r⟩ := s
      exact ih z t r
    | err => rfl
    | panic => rfl

/-! ### Field extraction from a successful parse -/

theorem parseRecord_ok_fields (line zone : Str) (dttl : Int)
    (m1 m2 m3 m4 m5 : Str) (r : record)
    (hm : rexMatch line = some (m1, m2, m3, m4, m5))
    (hr : parseRecord line zone dttl = .ok r) :
    r.Name = resolveName m1 zone ∧
    r.TTL = resolveTTL (if m2 = [] then dttl else (digitsVal m2 : Int)) dttl ∧
    r.Class = m3 ∧ r.Typ = m4 ∧ txtData m4 m5 = .ok r.Data := by
  unfold parseRecord at hr
  rw [hm] at hr
  dsimp only at hr
  by_cases hov : m2 ≠ [] ∧ digitsVal m2 > int64Max
  · rw [if_pos hov] at hr
    cases hr
  · rw [if_neg hov] at hr
    cases htd : txtData m4 m5 with
    | panic => rw [htd] at hr; cases hr
    | err => rw [htd] at hr; cases hr
    | ok d =>
      rw [htd] at hr
      injection hr with h
      subst h
      exact ⟨rfl, rfl, rfl, rfl, rfl⟩

/-- C1: a line that fails the record shape (here the 3-token line
`foo bar baz`) is claimed to make the parser report a recoverable
failure so that only that line is dropped; in the code
`FindStringSubmatch` returns nil and the unguarded `matches[2]`
access panics, aborting the entire run before the following valid
line is processed. -/
theorem C1_malformed_line_panics :
    parseRecord "foo bar baz".data [] 0 = .panic ∧
    formatZone defaultSorting pdNone "foo bar baz\nwww. 300 IN A 1.2.3.4".data = .panic := by
  exact ⟨by decide, by decide⟩

/-- C10: the scan loop indexes `scanner.Text()[0]` unconditionally, so
an empty scanned line panics in every state, and a whole input
containing an empty line panics end-to-end. -/
theorem C10_empty_line_panics :
    (∀ (pd : Str → Option Int) (zone : Str) (ttl : Int) (rr : List record)
      (rest : List Str), scanLoop pd zone ttl rr ([] :: rest) = .panic) ∧
    formatZone defaultSorting pdNone "a. IN A x\n\nb. IN A y".data = .panic := by
  constructor
  · intro pd zone ttl rr rest
    rfl
  · decide

/-- C2 (counterexample): the claim predicts a simple wrap with no
escaping of internal quotes; on the TXT data `a"b` the code produces
the Go-quoted form with an escaped internal quote, which differs
from the simple wrap of that data. -/
theorem C2_counterexample :
    parseRecord "www. IN TXT a\"b".data [] 300 =
      .ok { Name := "www.".data, TTL := 300, Class := "IN".data,
            Typ := "TXT".data, Data := "\"a\\\"b\"".data } ∧
    "\"a\\\"b\"".data ≠ '"' :: "a\"b".data ++ ['"'] := by
  exact ⟨by decide, by decide⟩

/-- C2 (amended): a parsed TXT record whose data starts with `"` keeps
its data unmodified; one whose data starts with any other character
gets its data replaced by the Go `%q` quoting of the whole data
(double-quoted, internal `"` and `\` escaped), not a plain wrap. -/
theorem C2_txt_quoting (line zone : Str) (dttl : Int)
    (m1 m2 m3 m5 : Str) (r : record)
    (hm : rexMatch line = some (m1, m2, m3, "TXT".data, m5))
    (hr : parseRecord line zone dttl = .ok r) :
    (m5.head? = some '"' → r.Data = m5) ∧
    (∀ c, m5.head? = some c → c ≠ '"' → r.Data = goQuote m5) := by
  obtain ⟨-, -, -, -, htd⟩ := parseRecord_ok_fields line zone dttl m1 m2 m3 _ m5 r hm hr
  unfold txtData at htd
  rw [if_pos rfl] at htd
  cases m5 with
  | nil => cases htd
  | cons c cs =>
    injection htd with hd
    constructor
    · intro hh
      rw [List.head?_cons, Option.some_inj] at hh
      rw [← hd, if_pos hh]
    · intro c' hc' hne
      rw [List.head?_cons, Option.some_inj] at hc'
      rw [← hd, if_neg (by rw [hc']; exact hne)]

theorem C2_txt_quoting_witness :
    ({ Name := "www.".data, TTL := 7, Class := "IN".data, Typ := "TXT".data,
       Data := "\"hello world\"".data } : record).Data = goQuote "hello world".data :=
  (C2_txt_quoting "www. IN TXT hello world".data [] 7 "www.".data [] "IN".data
    "hello world".data
    { Name := "www.".data, TTL := 7, Class := "IN".data, Typ := "TXT".data,
      Data := "\"hello world\"".data }
    (by decide) (by decide)).2 'h' (by decide) (by decide)

/-- C4: name resolution of a successfully parsed line.  A name token
of exactly `@` becomes the empty string and is then joined with the
origin by a `.` with leading dots stripped; a (nonempty, non-`@`)
name not ending in `.` is joined with the origin the same way, so
that a space-free `sub` yields `sub.` followed by the origin; a name
already ending in `.` is used as-is; and with an origin not starting
with `.` the `@` name resolves to the bare origin. -/
theorem C4_name_resolution (line zone : Str) (dttl : Int)
    (m1 m2 m3 m4 m5 : Str) (r : record)
    (hm : rexMatch line = some (m1, m2, m3, m4, m5))
    (hr : parseRecord line zone dttl = .ok r) :
    (m1.getLast? = some '.' → r.Name = m1) ∧
    (m1 = ['@'] → r.Name = ('.' :: zone).dropWhile (fun c => c == '.')) ∧
    (m1 ≠ ['@'] → m1.getLast? ≠ some '.' →
      r.Name = (m1 ++ '.' :: zone).dropWhile (fun c => c == '.')) ∧
    (m1 = ['@'] → zone.head?.all (fun c => !(c == '.')) = true → r.Name = zone) ∧
    (m1 ≠ [] → m1 ≠ ['@'] → m1.getLast? ≠ some '.' →
      m1.head?.all (fun c => !(c == '.')) = true → r.Name = m1 ++ '.' :: zone) := by
  obtain ⟨hname, -, -, -, -⟩ := parseRecord_ok_fields line zone dttl m1 m2 m3 m4 m5 r hm hr
  unfold resolveName at hname
  refine ⟨?_, ?_, ?_, ?_, ?_⟩
  · intro h
    have hne : m1 ≠ ['@'] := by
      intro e
      rw [e] at h
      exact absurd h (by decide)
    simp only [if_neg hne, h, if_pos] at hname
    exact hname
  · intro h
    simp only [if_pos h] at hname
    simp only [List.getLast?_nil, List.nil_append] at hname
    exact hname
  · intro h1 h2
    simp only [if_neg h1, if_neg h2] at hname
    exact hname
  · intro h hz
    simp only [if_pos h] at hname
    simp only [List.getLast?_nil, List.nil_append] at hname
    rw [hname, List.dropWhile_cons]
    have : (('.' : Char) == '.') = true := by decide
    rw [this]
    simp only [if_true]
    cases zone with
    | nil => rfl
    | cons z zs =>
      rw [List.dropWhile_cons]
      have hz' : ((z == '.') : Bool) = false := by simpa using hz
      rw [hz']
      simp
  · intro h0 h1 h2 h3
    simp only [if_neg h1, if_neg h2] at hname
    rw [hname]
    cases m1 with
    | nil => exact absurd rfl h0
    | cons a m1' =>
      rw [List.cons_append, List.dropWhile_cons]
      have ha : ((a == '.') : Bool) = false := by simpa using h3
      rw [ha]
      simp

theorem C4_name_resolution_witness :
    ({ Name := "example.com.".data, TTL := 300, Class := "IN".data, Typ := "SOA".data,
       Data := "ns1.example.com. x".data } : record).Name = "example.com.".data ∧
    ({ Name := "sub.other.net.".data, TTL := 5, Class := "IN".data, Typ := "A".data,
       Data := "10.0.0.2".data } : record).Name = "sub.other.net.".data ∧
    ({ Name := "www.example.com.".data, TTL := 5, Class := "IN".data, Typ := "A".data,
       Data := "1.2.3.4".data } : record).Name = "www".data ++ '.' :: "example.com.".data := by
  refine ⟨?_, ?_, ?_⟩
  · exact (C4_name_resolution "@ 300 IN SOA ns1.example.com. x".data "example.com.".data 0
      "@".data "300".data "IN".data "SOA".data "ns1.example.com. x".data
      { Name := "example.com.".data, TTL := 300, Class := "IN".data, Typ := "SOA".data,
        Data := "ns1.example.com. x".data }
      (by decide) (by decide)).2.2.2.1 (by decide) (by decide)
  · exact (C4_name_resolution "sub.other.net. IN A 10.0.0.2".data "example.com.".data 5
      "sub.other.net.".data [] "IN".data "A".data "10.0.0.2".data
      { Name := "sub.other.net.".data, TTL := 5, Class := "IN".data, Typ := "A".data,
        Data := "10.0.0.2".data }
      (by decide) (by decide)).1 (by decide)
  · exact (C4_name_resolution "www IN A 1.2.3.4".data "example.com.".data 5
      "www".data [] "IN".data "A".data "1.2.3.4".data
      { Name := "www.example.com.".data, TTL := 5, Class := "IN".data, Typ := "A".data,
        Data := "1.2.3.4".data }
      (by decide) (by decide)).2.2.2.2 (by decide) (by decide) (by decide) (by decide)

/-- C6: TTL resolution of a successfully parsed line.  When the
optional TTL token is absent the record gets the current default
TTL; when it is present but its value is zero, the default is
substituted as well; a present nonzero value is kept. -/
theorem C6_ttl_resolution (line zone : Str) (dttl : Int)
    (m1 m2 m3 m4 m5 : Str) (r : record)
    (hm : rexMatch line = some (m1, m2, m3, m4, m5))
    (hr : parseRecord line zone dttl = .ok r) :
    (m2 = [] → r.TTL = dttl) ∧
    (m2 ≠ [] → (digitsVal m2 : Int) = 0 → r.TTL = dttl) ∧
    (m2 ≠ [] → (digitsVal m2 : Int) ≠ 0 → r.TTL = (digitsVal m2 : Int)) := by
  obtain ⟨-, httl, -, -, -⟩ := parseRecord_ok_fields line zone dttl m1 m2 m3 m4 m5 r hm hr
  unfold resolveTTL at httl
  refine ⟨?_, ?_, ?_⟩
  · intro h
    rw [if_pos h] at httl
    rw [httl]
    split <;> rfl
  · intro h1 h2
    rw [if_neg h1, if_pos h2] at httl
    exact httl
  · intro h1 h2
    rw [if_neg h1, if_neg h2] at httl
    exact httl

theorem C6_ttl_resolution_witness :
    ({ Name := "a.".data, TTL := 42, Class := "IN".data, Typ := "A".data,
       Data := "x".data } : record).TTL = (42 : Int) ∧
    ({ Name := "b.".data, TTL := 42, Class := "IN".data, Typ := "A".data,
       Data := "x".data } : record).TTL = (42 : Int) ∧
    ({ Name := "c.".data, TTL := 300, Class := "IN".data, Typ := "A".data,
       Data := "x".data } : record).TTL = ((digitsVal "300".data : Nat) : Int) := by
  refine ⟨?_, ?_, ?_⟩
  · exact (C6_ttl_resolution "a. IN A x".data [] 42 "a.".data [] "IN".data "A".data "x".data
      { Name := "a.".data, TTL := 42, Class := "IN".data, Typ := "A".data, Data := "x".data }
      (by decide) (by decide)).1 rfl
  · exact (C6_ttl_resolution "b. 0 IN A x".data [] 42 "b.".data "0".data "IN".data "A".data
      "x".data
      { Name := "b.".data, TTL := 42, Class := "IN".data, Typ := "A".data, Data := "x".data }
      (by decide) (by decide)).2.1 (by decide) (by decide)
  · exact (C6_ttl_resolution "c. 300 IN A x".data [] 42 "c.".data "300".data "IN".data "A".data
      "x".data
      { Name := "c.".data, TTL := 300, Class := "IN".data, Typ := "A".data, Data := "x".data }
      (by decide) (by decide)).2.2 (by decide) (by decide)

/-- C7: a `$TTL` directive whose argument the duration parser rejects
makes the scan loop return an error regardless of state and of any
following lines, and a scan error makes `formatZone` return the
error with no rendered output; a successfully parsed argument is
stored (in seconds) as the new default TTL and the loop continues
with no record produced. -/
theorem C7_ttl_directive (tbl : List (Str × Nat)) (pd : Str → Option Int)
    (zone : Str) (ttl : Int) (rr : List record) (arg : Str) :
    (pd arg = none → ∀ rest : List Str,
      scanLoop pd zone ttl rr (("$TTL ".data ++ arg) :: rest) = .err) ∧
    (∀ v, pd arg = some v →
      scanStep pd zone ttl rr ("$TTL ".data ++ arg) = .ok (zone, v, rr)) ∧
    (∀ input : Str, scanLoop pd [] 0 [] (goLines input) = .err →
      formatZone tbl pd input = .err) := by
  have hstep : scanStep pd zone ttl rr ("$TTL ".data ++ arg) =
      match pd arg with
      | none => .err
      | some v => .ok (zone, v, rr) := rfl
  refine ⟨?_, ?_, ?_⟩
  · intro hpd rest
    simp only [scanLoop, hstep, hpd]
  · intro v hpd
    rw [hstep, hpd]
  · intro input h
    unfold formatZone parseAll
    rw [h]

theorem C7_ttl_directive_witness :
    scanLoop pdOneHour "z.".data 5 [] [("$TTL ".data ++ "bogus".data)] = .err ∧
    scanStep pdOneHour "z.".data 5 [] ("$TTL ".data ++ "1h".data) =
      .ok ("z.".data, 3600, []) ∧
    formatZone defaultSorting pdOneHour "$TTL bogus\na. IN A x".data = .err := by
  refine ⟨?_, ?_, ?_⟩
  · exact (C7_ttl_directive defaultSorting pdOneHour "z.".data 5 [] "bogus".data).1
      (by decide) []
  · exact (C7_ttl_directive defaultSorting pdOneHour "z.".data 5 [] "1h".data).2.1
      3600 (by decide)
  · exact (C7_ttl_directive defaultSorting pdOneHour [] 0 [] []).2.2
      "$TTL bogus\na. IN A x".data (by decide)

/-- C9 (counterexample): the claim says a directive line is split on
the first whitespace; the code splits only on the first space
character (U+0020), so `$ORIGIN<TAB>foo.` is not recognised as an
`$ORIGIN` directive: it falls into the unknown-directive branch and
the origin is left unchanged instead of being set to `foo.`. -/
theorem C9_counterexample :
    scanStep pdNone "start.".data 7 [] "$ORIGIN\tfoo.".data =
      .ok ("start.".data, 7, []) ∧
    "start.".data ≠ "foo.".data := by
  exact ⟨by decide, by decide⟩

/-- C9 (amended): a `$`-line is split at its first space character
into a keyword (the space-free prefix) and the verbatim remainder;
keyword `$ORIGIN` sets the origin to the remainder verbatim and
produces no record, and any keyword other than `$ORIGIN` and `$TTL`
leaves the state entirely unchanged, the line being skipped and
processing continuing. -/
theorem C9_directive_space_split (pd : Str → Option Int) (zone : Str) (ttl : Int)
    (rr : List record) (kw arg : Str)
    (hd : kw.head? = some '$') (hsp : ∀ c ∈ kw, c ≠ ' ') :
    (kw = "$ORIGIN".data →
      scanStep pd zone ttl rr (kw ++ ' ' :: arg) = .ok (arg, ttl, rr)) ∧
    (kw ≠ "$ORIGIN".data → kw ≠ "$TTL".data →
      scanStep pd zone ttl rr (kw ++ ' ' :: arg) = .ok (zone, ttl, rr)) := by
  have hsplit : splitNSpace (kw ++ ' ' :: arg) = (kw, some arg) := by
    have hdw : (kw ++ ' ' :: arg).dropWhile (fun c => !(c == ' ')) = ' ' :: arg := by
      refine dropWhile_tok _ kw (' ' :: arg) ?_ ?_
      · intro c hc
        have := hsp c hc
        simp [this]
      · intro c hc
        rw [List.head?_cons, Option.some_inj] at hc
        subst hc
        decide
    have htw : (kw ++ ' ' :: arg).takeWhile (fun c => !(c == ' ')) = kw := by
      refine takeWhile_tok _ kw (' ' :: arg) ?_ ?_
      · intro c hc
        have := hsp c hc
        simp [this]
      · intro c hc
        rw [List.head?_cons, Option.some_inj] at hc
        subst hc
        decide
    unfold splitNSpace
    rw [hdw, htw]
  cases kw with
  | nil => exact absurd hd (by decide)
  | cons k0 kt =>
    have hk0 : k0 = '$' := by
      rw [List.head?_cons, Option.some_inj] at hd
      exact hd
    subst hk0
    simp only [List.cons_append] at hsplit ⊢
    constructor
    · intro hkw
      simp [scanStep, hsplit, hkw]
    · intro h1 h2
      have h1' : kt ≠ "ORIGIN".data := fun e => h1 (by rw [e])
      have h2' : kt ≠ "TTL".data := fun e => h2 (by rw [e])
      simp [scanStep, hsplit, h1', h2']

theorem C9_directive_space_split_witness :
    scanStep pdNone "old.".data 3 [] ("$ORIGIN".data ++ ' ' :: "new.zone x".data) =
      .ok ("new.zone x".data, 3, []) ∧
    scanStep pdNone "old.".data 3 [] ("$WEIRD".data ++ ' ' :: "stuff".data) =
      .ok ("old.".data, 3, []) := by
  constructor
  · exact (C9_directive_space_split pdNone "old.".data 3 [] "$ORIGIN".data "new.zone x".data
      (by decide) (by decide)).1 rfl
  · exact (C9_directive_space_split pdNone "old.".data 3 [] "$WEIRD".data "stuff".data
      (by decide) (by decide)).2 (by decide) (by decide)

/-- C5: for every priority table the sorter permutes the records into
an order where, pairwise, the earlier record has a score (table
lookup with default 100, decided at lookup time) no greater than the
later one, and equal scores are ordered by name ascending in byte
order; a type absent from the table scores 100; and under the
default table types order as SOA, NS, MX, then everything else,
names breaking ties. -/
theorem C5_sort_order :
    (∀ (tbl : List (Str × Nat)) (rr : List record),
      (sortRecords tbl rr).Perm rr ∧
      List.Pairwise (fun a b =>
        score tbl a.Typ ≤ score tbl b.Typ ∧
        (score tbl a.Typ = score tbl b.Typ → goStrLt b.Name a.Name = false))
        (sortRecords tbl rr)) ∧
    (∀ (tbl : List (Str × Nat)) (ty : Str),
      tbl.find? (fun p => decide (p.1 = ty)) = none → score tbl ty = 100) ∧
    sortRecords defaultSorting
      [{ Name := "m.".data, TTL := 1, Class := "IN".data, Typ := "MX".data, Data := "x".data },
       { Name := "b.".data, TTL := 1, Class := "IN".data, Typ := "A".data, Data := "x".data },
       { Name := "s.".data, TTL := 1, Class := "IN".data, Typ := "SOA".data, Data := "x".data },
       { Name := "a.".data, TTL := 1, Class := "IN".data, Typ := "A".data, Data := "x".data },
       { Name := "n.".data, TTL := 1, Class := "IN".data, Typ := "NS".data, Data := "x".data }] =
      [{ Name := "s.".data, TTL := 1, Class := "IN".data, Typ := "SOA".data, Data := "x".data },
       { Name := "n.".data, TTL := 1, Class := "IN".data, Typ := "NS".data, Data := "x".data },
       { Name := "m.".data, TTL := 1, Class := "IN".data, Typ := "MX".data, Data := "x".data },
       { Name := "a.".data, TTL := 1, Class := "IN".data, Typ := "A".data, Data := "x".data },
       { Name := "b.".data, TTL := 1, Class := "IN".data, Typ := "A".data, Data := "x".data }] := by
  refine ⟨?_, ?_, by decide⟩
  · intro tbl rr
    haveI : IsTotal record (fun a b => recLess tbl b a = false) := ⟨relTotal tbl⟩
    haveI : IsTrans record (fun a b => recLess tbl b a = false) := ⟨relTrans tbl⟩
    constructor
    · exact List.perm_insertionSort _ rr
    · have hs := List.sorted_insertionSort (fun a b => recLess tbl b a = false) rr
      unfold sortRecords
      refine List.Pairwise.imp ?_ hs
      intro a b hab
      rw [recLess_false_iff] at hab
      rcases hab with h | ⟨h1, h2⟩
      · exact ⟨le_of_lt h, fun he => absurd he (by omega)⟩
      · exact ⟨le_of_eq h1.symm, fun _ => h2⟩
  · intro tbl ty h
    unfold score
    rw [h]

theorem C5_sort_order_witness :
    score defaultSorting "AAAA".data = 100 ∧
    (sortRecords defaultSorting
      [{ Name := "b.".data, TTL := 1, Class := "IN".data, Typ := "A".data, Data := "x".data },
       { Name := "a.".data, TTL := 1, Class := "IN".data, Typ := "A".data, Data := "y".data }]).Perm
      [{ Name := "b.".data, TTL := 1, Class := "IN".data, Typ := "A".data, Data := "x".data },
       { Name := "a.".data, TTL := 1, Class := "IN".data, Typ := "A".data, Data := "y".data }] := by
  constructor
  · exact C5_sort_order.2.1 defaultSorting "AAAA".data (by decide)
  · exact (C5_sort_order.1 defaultSorting _).1

/-! ### Lemmas for re-parsing a rendered line -/

theorem isGoSpace_false_of_notSpace {c : Char} (h : notSpace c = true) :
    isGoSpace c = false := by
  unfold notSpace at h
  cases hg : isGoSpace c
  · rfl
  · rw [hg] at h
    exact absurd h (by decide)

theorem head?_sp (n : Nat) (y : Str) :
    (List.replicate n ' ' ++ ' ' :: y).head? = some ' ' := by
  cases n with
  | zero => rfl
  | succ m => rfl

theorem head?_tok_append (t x : Str) (ht : t ≠ []) : (t ++ x).head? = t.head? := by
  cases t with
  | nil => exact absurd rfl ht
  | cons a l => rfl

theorem all_space_pad (pn pt : Nat) :
    ∀ c ∈ List.replicate pn ' ' ++ ' ' :: List.replicate pt ' ', isGoSpace c = true := by
  intro c hc
  rcases List.mem_append.mp hc with h | h
  · rw [List.eq_of_mem_replicate h]
    decide
  · rcases List.mem_cons.mp h with h | h
    · subst h
      decide
    · rw [List.eq_of_mem_replicate h]
      decide

theorem matchTail_aligned (cls ty da : Str) (py : Nat)
    (hc1 : cls ≠ []) (hc2 : ∀ c ∈ cls, notSpace c = true)
    (hy1 : ty ≠ []) (hy2 : ∀ c ∈ ty, notSpace c = true)
    (hdh : da.head?.all (fun c => !isGoSpace c) = true) :
    matchTail (cls ++ ' ' :: (ty ++ (List.replicate py ' ' ++ ' ' :: da))) =
      some (cls, ty, da) := by
  have hhead1 : ∀ c, (' ' :: (ty ++ (List.replicate py ' ' ++ ' ' :: da))).head? = some c →
      notSpace c = false := by
    intro c hc
    rw [List.head?_cons, Option.some_inj] at hc
    subst hc
    decide
  have htw1 := takeWhile_tok notSpace cls _ hc2 hhead1
  have hdw1 := dropWhile_tok notSpace cls _ hc2 hhead1
  have htyhead : ∀ c, (ty ++ (List.replicate py ' ' ++ ' ' :: da)).head? = some c →
      isGoSpace c = false := by
    intro c hc
    rw [head?_tok_append _ _ hy1] at hc
    exact isGoSpace_false_of_notSpace (hy2 c (List.mem_of_mem_head? hc))
  have hw2 : ((' ' :: (ty ++ (List.replicate py ' ' ++ ' ' :: da))).takeWhile isGoSpace) ≠ [] := by
    rw [List.takeWhile_cons, show isGoSpace ' ' = true from by decide]
    simp
  have hdw2 : (' ' :: (ty ++ (List.replicate py ' ' ++ ' ' :: da))).dropWhile isGoSpace =
      ty ++ (List.replicate py ' ' ++ ' ' :: da) := by
    rw [List.dropWhile_cons, show isGoSpace ' ' = true from by decide]
    simp only [if_true]
    exact dropWhile_head_false _ _ htyhead
  have hpadhead : ∀ c, (List.replicate py ' ' ++ ' ' :: da).head? = some c →
      notSpace c = false := by
    intro c hc
    rw [head?_sp] at hc
    rw [Option.some_inj] at hc
    subst hc
    decide
  have htw3 := takeWhile_tok notSpace ty _ hy2 hpadhead
  have hdw3 := dropWhile_tok notSpace ty _ hy2 hpadhead
  have hpeq : List.replicate py ' ' ++ ' ' :: da = (List.replicate py ' ' ++ [' ']) ++ da := by
    simp
  have hdahead : ∀ c, da.head? = some c → isGoSpace c = false := by
    intro c hc
    rw [hc] at hdh
    simpa using hdh
  have htw4 : (List.replicate py ' ' ++ ' ' :: da).takeWhile isGoSpace =
      List.replicate py ' ' ++ [' '] := by
    rw [hpeq]
    exact takeWhile_tok _ _ _ (all_space_pad py 0) hdahead
  have hdw4 : (List.replicate py ' ' ++ ' ' :: da).dropWhile isGoSpace = da := by
    rw [hpeq]
    exact dropWhile_tok _ _ _ (all_space_pad py 0) hdahead
  have hw4ne : List.replicate py ' ' ++ [' '] ≠ [] := by simp
  unfold matchTail
  dsimp only
  rw [htw1, hdw1, if_neg hc1, if_neg hw2, hdw2, htw3, hdw3, if_neg hy1, htw4, hdw4,
    if_neg hw4ne]

theorem rexMatch_aligned (nm ttlS cls ty da : Str) (pn pt py : Nat)
    (hn1 : nm ≠ []) (hn2 : ∀ c ∈ nm, notSpace c = true)
    (ht1 : ttlS ≠ []) (ht2 : ∀ c ∈ ttlS, c.isDigit = true)
    (hc1 : cls ≠ []) (hc2 : ∀ c ∈ cls, notSpace c = true)
    (hy1 : ty ≠ []) (hy2 : ∀ c ∈ ty, notSpace c = true)
    (hdh : da.head?.all (fun c => !isGoSpace c) = true) :
    rexMatch (nm ++ (List.replicate pn ' ' ++ ' ' ::
        (List.replicate pt ' ' ++ (ttlS ++ ' ' ::
          (cls ++ ' ' :: (ty ++ (List.replicate py ' ' ++ ' ' :: da))))))) =
      some (nm, ttlS, cls, ty, da) := by
  set TL := cls ++ ' ' :: (ty ++ (List.replicate py ' ' ++ ' ' :: da)) with hTL
  set B := List.replicate pn ' ' ++ ' ' :: (List.replicate pt ' ' ++ (ttlS ++ ' ' :: TL))
    with hB
  have hBhead : ∀ c, B.head? = some c → notSpace c = false := by
    intro c hc
    rw [hB, head?_sp] at hc
    rw [Option.some_inj] at hc
    subst hc
    decide
  have htw1 := takeWhile_tok notSpace nm B hn2 hBhead
  have hdw1 := dropWhile_tok notSpace nm B hn2 hBhead
  have hBeq : B = (List.replicate pn ' ' ++ ' ' :: List.replicate pt ' ') ++
      (ttlS ++ ' ' :: TL) := by
    rw [hB]
    simp [List.append_assoc]
  have hTLShead : ∀ c, (ttlS ++ ' ' :: TL).head? = some c → isGoSpace c = false := by
    intro c hc
    rw [head?_tok_append _ _ ht1] at hc
    exact isGoSpace_eq_false_of_isDigit (ht2 c (List.mem_of_mem_head? hc))
  have htw2 : B.takeWhile isGoSpace =
      List.replicate pn ' ' ++ ' ' :: List.replicate pt ' ' := by
    rw [hBeq]
    exact takeWhile_tok _ _ _ (all_space_pad pn pt) hTLShead
  have hdw2 : B.dropWhile isGoSpace = ttlS ++ ' ' :: TL := by
    rw [hBeq]
    exact dropWhile_tok _ _ _ (all_space_pad pn pt) hTLShead
  have hw2ne : List.replicate pn ' ' ++ ' ' :: List.replicate pt ' ' ≠ [] := by simp
  have hspTL : ∀ c, (' ' :: TL).head? = some c → Char.isDigit c = false := by
    intro c hc
    rw [List.head?_cons, Option.some_inj] at hc
    subst hc
    decide
  have htw3 : (ttlS ++ ' ' :: TL).takeWhile (fun c => c.isDigit) = ttlS :=
    takeWhile_tok _ _ _ ht2 hspTL
  have hdw3 : (ttlS ++ ' ' :: TL).dropWhile (fun c => c.isDigit) = ' ' :: TL :=
    dropWhile_tok _ _ _ ht2 hspTL
  have hw4 : ((' ' :: TL).takeWhile isGoSpace) ≠ [] := by
    rw [List.takeWhile_cons, show isGoSpace ' ' = true from by decide]
    simp
  have hTLhead : ∀ c, TL.head? = some c → isGoSpace c = false := by
    intro c hc
    rw [hTL, head?_tok_append _ _ hc1] at hc
    exact isGoSpace_false_of_notSpace (hc2 c (List.mem_of_mem_head? hc))
  have hdw4 : (' ' :: TL).dropWhile isGoSpace = TL := by
    rw [List.dropWhile_cons, show isGoSpace ' ' = true from by decide]
    simp only [if_true]
    exact dropWhile_head_false _ _ hTLhead
  have hmt : matchTail TL = some (cls, ty, da) := by
    rw [hTL]
    exact matchTail_aligned cls ty da py hc1 hc2 hy1 hy2 hdh
  unfold rexMatch
  dsimp only
  rw [htw1, hdw1, if_neg hn1, htw2, hdw2, if_neg hw2ne, htw3, hdw3, if_neg ht1,
    if_neg hw4, hdw4, hmt]

theorem rexMatch_renderCore (w : Nat) (r : record) (hg : goodRec r) :
    rexMatch (renderCore w r) =
      some (r.Name, natDigits r.TTL.toNat, r.Class, r.Typ, r.Data) := by
  obtain ⟨⟨hN1, hN2⟩, hNlast, hNdol, hT0, hTmax, ⟨hC1, hC2⟩, ⟨hY1, hY2⟩,
    hDn, hDr, hDh, hDtxt⟩ := hg
  have hT : intToStr r.TTL = natDigits r.TTL.toNat := by
    unfold intToStr
    rw [if_neg (not_lt.mpr hT0)]
  have hcore : renderCore w r =
      r.Name ++ (List.replicate (w - r.Name.length) ' ' ++ ' ' ::
        (List.replicate (5 - (natDigits r.TTL.toNat).length) ' ' ++
          (natDigits r.TTL.toNat ++ ' ' ::
            (r.Class ++ ' ' ::
              (r.Typ ++ (List.replicate (5 - r.Typ.length) ' ' ++ ' ' :: r.Data)))))) := by
    simp [renderCore, padRight, padLeft, hT, List.append_assoc]
  rw [hcore]
  exact rexMatch_aligned r.Name (natDigits r.TTL.toNat) r.Class r.Typ r.Data _ _ _
    hN1 hN2 (natDigits_ne_nil _) (natDigits_all_digit _) hC1 hC2 hY1 hY2 hDh

theorem parseRecord_renderCore (w : Nat) (r : record) (hg : goodRec r) :
    parseRecord (renderCore w r) [] 0 = .ok r := by
  have hm := rexMatch_renderCore w r hg
  obtain ⟨⟨hN1, hN2⟩, hNlast, hNdol, hT0, hTmax, ⟨hC1, hC2⟩, ⟨hY1, hY2⟩,
    hDn, hDr, hDh, hDtxt⟩ := hg
  unfold parseRecord
  rw [hm]
  dsimp only
  have hvB : digitsVal (natDigits r.TTL.toNat) = r.TTL.toNat := digitsVal_natDigits _
  have hov : ¬(natDigits r.TTL.toNat ≠ [] ∧ digitsVal (natDigits r.TTL.toNat) > int64Max) := by
    rw [hvB]
    have hTmax' : r.TTL ≤ ((9223372036854775807 : Nat) : Int) := hTmax
    rintro ⟨-, hgt⟩
    unfold int64Max at hgt
    omega
  rw [if_neg hov]
  have htd : txtData r.Typ r.Data = .ok r.Data := by
    unfold txtData
    by_cases ht : r.Typ = "TXT".data
    · rw [if_pos ht]
      have hq := hDtxt ht
      cases hD : r.Data with
      | nil =>
        rw [hD] at hq
        exact absurd hq (by decide)
      | cons c cs =>
        rw [hD] at hq
        rw [List.head?_cons, Option.some_inj] at hq
        dsimp only
        rw [if_pos hq]
    · rw [if_neg ht]
  rw [htd]
  have hname : resolveName r.Name [] = r.Name := by
    unfold resolveName
    have hne : r.Name ≠ ['@'] := by
      intro e
      rw [e] at hNlast
      exact absurd hNlast (by decide)
    simp only [if_neg hne, hNlast, if_pos]
  have httl : resolveTTL (if natDigits r.TTL.toNat = [] then (0 : Int)
      else (digitsVal (natDigits r.TTL.toNat) : Int)) 0 = r.TTL := by
    rw [if_neg (natDigits_ne_nil _), hvB]
    unfold resolveTTL
    have : ((r.TTL.toNat : Nat) : Int) = r.TTL := Int.toNat_of_nonneg hT0
    rw [this]
    by_cases h0 : r.TTL = 0
    · rw [if_pos h0, h0]
    · rw [if_neg h0]
  rw [hname, httl]

theorem scanStep_record_line (pd : Str → Option Int) (zone : Str) (ttl : Int)
    (acc : List record) (c : Char) (cs : Str)
    (hc : c ≠ '$') (r : record)
    (hp : parseRecord (c :: cs) zone ttl = .ok r) :
    scanStep pd zone ttl acc (c :: cs) = .ok (zone, ttl, acc ++ [r]) := by
  unfold scanStep
  dsimp only
  rw [if_neg hc, hp]

theorem scanStep_renderCore (pd : Str → Option Int) (acc : List record) (w : Nat)
    (r : record) (hg : goodRec r) :
    scanStep pd [] 0 acc (renderCore w r) = .ok ([], 0, acc ++ [r]) := by
  have hp := parseRecord_renderCore w r hg
  obtain ⟨N, T, C, Y, D⟩ := r
  obtain ⟨⟨hN1, hN2⟩, hNlast, hNdol, hrest⟩ := hg
  cases hN : N with
  | nil => exact absurd hN hN1
  | cons n0 nt =>
    subst hN
    have hdol : n0 ≠ '$' := by
      intro e
      exact hNdol (by rw [e]; rfl)
    exact scanStep_record_line pd [] 0 acc n0 _ hdol _ hp

theorem scanLoop_renderCores (pd : Str → Option Int) (w : Nat) :
    ∀ (M acc : List record), (∀ r ∈ M, goodRec r) →
      scanLoop pd [] 0 acc (M.map (renderCore w)) = .ok ([], 0, acc ++ M) := by
  intro M
  induction M with
  | nil =>
    intro acc _
    simp [scanLoop]
  | cons r M' ih =>
    intro acc hg
    simp only [List.map_cons, scanLoop]
    rw [scanStep_renderCore pd acc w r (hg r (List.mem_cons_self r M'))]
    dsimp only
    rw [ih (acc ++ [r]) (fun x hx => hg x (List.mem_cons_of_mem r hx))]
    simp [List.append_assoc]

/-! ### Splitting rendered output back into lines -/

theorem splitNL_cons (c : Char) (s : Str) :
    splitNL (c :: s) = if c = '\n' then [] :: splitNL s else
      match splitNL s with
      | [] => [[c]]
      | l :: ls => (c :: l) :: ls := rfl

theorem splitNL_line (l s : Str) (hl : ∀ c ∈ l, c ≠ '\n') :
    splitNL (l ++ '\n' :: s) = l :: splitNL s := by
  induction l with
  | nil => rw [List.nil_append, splitNL_cons, if_pos rfl]
  | cons a l' ih =>
    rw [List.cons_append, splitNL_cons, if_neg (hl a (List.mem_cons_self a l')),
      ih (fun c hc => hl c (List.mem_cons_of_mem a hc))]

theorem splitNL_flatten (lines : List Str) (h : ∀ l ∈ lines, ∀ c ∈ l, c ≠ '\n') :
    splitNL ((lines.map (fun l => l ++ ['\n'])).flatten) = lines := by
  induction lines with
  | nil => rfl
  | cons l ls ih =>
    simp only [List.map_cons, List.flatten_cons]
    have heq : (l ++ ['\n']) ++ (ls.map (fun l => l ++ ['\n'])).flatten =
        l ++ '\n' :: (ls.map (fun l => l ++ ['\n'])).flatten := by
      simp
    rw [heq, splitNL_line l _ (h l (List.mem_cons_self l ls)),
      ih (fun x hx => h x (List.mem_cons_of_mem l hx))]

theorem mem_renderCore (w : Nat) (r : record) (c : Char) (hc : c ∈ renderCore w r) :
    c ∈ r.Name ∨ c ∈ intToStr r.TTL ∨ c ∈ r.Class ∨ c ∈ r.Typ ∨ c ∈ r.Data ∨ c = ' ' := by
  unfold renderCore padRight padLeft at hc
  simp only [List.mem_append, List.mem_cons, List.mem_replicate] at hc
  tauto

theorem renderCore_no_newline (w : Nat) (r : record) (hg : goodRec r) :
    ∀ c ∈ renderCore w r, c ≠ '\n' := by
  obtain ⟨⟨-, hN2⟩, -, -, hT0, -, ⟨-, hC2⟩, ⟨-, hY2⟩, hDn, -, -, -⟩ := hg
  have hT : intToStr r.TTL = natDigits r.TTL.toNat := by
    unfold intToStr
    rw [if_neg (not_lt.mpr hT0)]
  intro c hc heq
  subst heq
  rcases mem_renderCore w r _ hc with h | h | h | h | h | h
  · exact absurd (hN2 _ h) (by decide)
  · rw [hT] at h
    exact absurd (natDigits_all_digit _ _ h) (by decide)
  · exact absurd (hC2 _ h) (by decide)
  · exact absurd (hY2 _ h) (by decide)
  · exact hDn _ h rfl
  · exact absurd h (by decide)

theorem renderCore_last_ne_cr (w : Nat) (r : record) (hg : goodRec r) :
    (renderCore w r).getLast? ≠ some '\r' := by
  obtain ⟨-, -, -, -, -, -, -, -, hDr, -, -⟩ := hg
  have heq : renderCore w r =
      (padRight r.Name w ++ [' '] ++ padLeft 5 (intToStr r.TTL) ++ [' '] ++ r.Class ++
        [' '] ++ padRight r.Typ 5) ++ ' ' :: r.Data := by
    simp [renderCore, List.append_assoc]
  rw [heq, List.getLast?_append_cons]
  cases hD : r.Data with
  | nil => decide
  | cons d ds =>
    rw [hD] at hDr
    rw [List.getLast?_cons_cons]
    exact hDr

theorem goLines_render (M : List record) (hg : ∀ r ∈ M, goodRec r) :
    goLines (render M) = M.map (renderCore (maxNameLen M)) := by
  have h1 : render M =
      ((M.map (renderCore (maxNameLen M))).map (fun l => l ++ ['\n'])).flatten := by
    unfold render renderLine
    rw [List.map_map]
    rfl
  unfold goLines
  rw [h1, splitNL_flatten]
  · have hid : ∀ l ∈ M.map (renderCore (maxNameLen M)), dropCR l = id l := by
      intro l hl
      rw [List.mem_map] at hl
      obtain ⟨r, hr, rfl⟩ := hl
      unfold dropCR
      rw [if_neg (renderCore_last_ne_cr _ r (hg r hr))]
      rfl
    rw [List.map_congr_left hid, List.map_id]
  · intro l hl c hc
    rw [List.mem_map] at hl
    obtain ⟨r, hr, rfl⟩ := hl
    exact renderCore_no_newline _ r (hg r hr) c hc

theorem sortRecords_idem (tbl : List (Str × Nat)) (L : List record) :
    sortRecords tbl (sortRecords tbl L) = sortRecords tbl L := by
  unfold sortRecords
  haveI : IsTotal record (fun a b => recLess tbl b a = false) := ⟨relTotal tbl⟩
  haveI : IsTrans record (fun a b => recLess tbl b a = false) := ⟨relTrans tbl⟩
  exact List.Sorted.insertionSort_eq (List.sorted_insertionSort _ L)

/-- C3 (counterexample): formatting is not idempotent.  With an
`$ORIGIN` whose argument lacks the trailing dot, the first run emits
the unqualified name `www.example.com`; re-formatting that output
appends another dot (the empty origin of the second run joins in),
so the second output differs byte-wise from the first. -/
theorem C3_counterexample :
    formatZone defaultSorting pdNone "$ORIGIN example.com\nwww IN A 1.2.3.4".data =
      .ok "www.example.com     0 IN A     1.2.3.4\n".data ∧
    formatZone defaultSorting pdNone "www.example.com     0 IN A     1.2.3.4\n".data =
      .ok "www.example.com.     0 IN A     1.2.3.4\n".data ∧
    ("www.example.com     0 IN A     1.2.3.4\n".data : Str) ≠
      "www.example.com.     0 IN A     1.2.3.4\n".data := by
  exact ⟨by decide, by decide, by decide⟩

/-- C3 (amended): formatting is idempotent for inputs all of whose
parsed records are `goodRec`: every name nonempty, whitespace-free,
dot-terminated and not starting with `$`, every TTL in
`[0, 2^63-1]`, class and type plain tokens, and data free of
newlines with no leading whitespace, no trailing carriage return,
and already quoted for TXT.  Re-formatting the first run's output
reproduces it byte-identically. -/
theorem C3_idempotent_amended (tbl : List (Str × Nat)) (pd : Str → Option Int)
    (input : Str) (L : List record)
    (hp : parseAll pd input = .ok L) (hg : ∀ r ∈ L, goodRec r) :
    formatZone tbl pd input = .ok (render (sortRecords tbl L)) ∧
    formatZone tbl pd (render (sortRecords tbl L)) = .ok (render (sortRecords tbl L)) := by
  constructor
  · unfold formatZone
    rw [hp]
  · have hgm : ∀ r ∈ sortRecords tbl L, goodRec r := by
      intro r hr
      exact hg r ((List.perm_insertionSort _ L).subset hr)
    have hlines := goLines_render (sortRecords tbl L) hgm
    have hscan := scanLoop_renderCores pd (maxNameLen (sortRecords tbl L))
      (sortRecords tbl L) [] hgm
    rw [List.nil_append] at hscan
    unfold formatZone parseAll
    rw [hlines, hscan]
    dsimp only
    rw [sortRecords_idem]

theorem C3_idempotent_amended_witness :
    formatZone defaultSorting pdNone "www.example.com. 300 IN A 1.2.3.4".data =
      .ok (render (sortRecords defaultSorting
        [{ Name := "www.example.com.".data, TTL := 300, Class := "IN".data,
           Typ := "A".data, Data := "1.2.3.4".data }])) ∧
    formatZone defaultSorting pdNone
      (render (sortRecords defaultSorting
        [{ Name := "www.example.com.".data, TTL := 300, Class := "IN".data,
           Typ := "A".data, Data := "1.2.3.4".data }])) =
      .ok (render (sortRecords defaultSorting
        [{ Name := "www.example.com.".data, TTL := 300, Class := "IN".data,
           Typ := "A".data, Data := "1.2.3.4".data }])) :=
  C3_idempotent_amended defaultSorting pdNone "www.example.com. 300 IN A 1.2.3.4".data
    [{ Name := "www.example.com.".data, TTL := 300, Class := "IN".data,
       Typ := "A".data, Data := "1.2.3.4".data }]
    (by decide) (by decide)

/-! ### Maximum name length -/

theorem foldl_max_init_le (rr : List record) :
    ∀ a : Nat, a ≤ rr.foldl (fun m r => max m r.Name.length) a := by
  induction rr with
  | nil =>
    intro a
    exact le_refl a
  | cons r rs ih =>
    intro a
    rw [List.foldl_cons]
    exact le_trans (le_max_left a _) (ih (max a r.Name.length))

theorem foldl_max_mem_le (rr : List record) :
    ∀ (a : Nat) (r : record), r ∈ rr →
      r.Name.length ≤ rr.foldl (fun m r => max m r.Name.length) a := by
  induction rr with
  | nil =>
    intro a r h
    exact absurd h (List.not_mem_nil r)
  | cons x xs ih =>
    intro a r h
    rw [List.foldl_cons]
    rcases List.mem_cons.mp h with h | h
    · subst h
      exact le_trans (le_max_right a r.Name.length) (foldl_max_init_le xs _)
    · exact ih _ r h

theorem foldl_max_attained (rr : List record) :
    ∀ a : Nat, rr.foldl (fun m r => max m r.Name.length) a = a ∨
      ∃ r ∈ rr, rr.foldl (fun m r => max m r.Name.length) a = r.Name.length := by
  induction rr with
  | nil =>
    intro a
    exact Or.inl rfl
  | cons x xs ih =>
    intro a
    rw [List.foldl_cons]
    rcases ih (max a x.Name.length) with h | ⟨r, hr, he⟩
    · rcases le_total a x.Name.length with hab | hab
      · right
        exact ⟨x, List.mem_cons_self x xs, by rw [h, Nat.max_eq_right hab]⟩
      · left
        rw [h, Nat.max_eq_left hab]
    · right
      exact ⟨r, List.mem_cons_of_mem x hr, he⟩

/-- C8: with `L` the parsed records, `formatZone` renders exactly one
newline-terminated line per sorted record — the name left-justified
with trailing spaces to the maximum name length over the list, one
space, the TTL right-justified to width 5, one space, the class at
natural width, one space, the type left-justified to width 5, one
space, then the data verbatim — with nothing else emitted, and an
empty record list yields empty output with no error; the name-column
width bounds every name and is attained (or the list is empty). -/
theorem C8_render_format (tbl : List (Str × Nat)) (pd : Str → Option Int)
    (input : Str) (L : List record) (hp : parseAll pd input = .ok L) :
    formatZone tbl pd input = .ok
      (((sortRecords tbl L).map (fun r =>
        (r.Name ++ List.replicate (maxNameLen (sortRecords tbl L) - r.Name.length) ' ') ++
          ' ' :: (List.replicate (5 - (intToStr r.TTL).length) ' ' ++ intToStr r.TTL) ++
          ' ' :: r.Class ++
          ' ' :: (r.Typ ++ List.replicate (5 - r.Typ.length) ' ') ++
          ' ' :: r.Data ++ ['\n'])).flatten) ∧
    (∀ r ∈ sortRecords tbl L, r.Name.length ≤ maxNameLen (sortRecords tbl L)) ∧
    (maxNameLen (sortRecords tbl L) = 0 ∨
      ∃ r ∈ sortRecords tbl L, r.Name.length = maxNameLen (sortRecords tbl L)) ∧
    (L = [] → formatZone tbl pd input = .ok []) := by
  refine ⟨?_, ?_, ?_, ?_⟩
  · unfold formatZone
    rw [hp]
    congr 1
  · intro r hr
    exact foldl_max_mem_le (sortRecords tbl L) 0 r hr
  · rcases foldl_max_attained (sortRecords tbl L) 0 with h | ⟨r, hr, he⟩
    · exact Or.inl h
    · exact Or.inr ⟨r, hr, he.symm⟩
  · intro h
    subst h
    unfold formatZone
    rw [hp]
    rfl

theorem C8_render_format_witness :
    formatZone defaultSorting pdNone "".data = .ok [] ∧
    formatZone defaultSorting pdNone "b. 1 IN A x\nns. 1 IN NS y".data =
      .ok "ns.     1 IN NS    y\nb.      1 IN A     x\n".data := by
  constructor
  · exact (C8_render_format defaultSorting pdNone "".data [] (by decide)).2.2.2 rfl
  · have h := (C8_render_format defaultSorting pdNone "b. 1 IN A x\nns. 1 IN NS y".data
      [{ Name := "b.".data, TTL := 1, Class := "IN".data, Typ := "A".data, Data := "x".data },
       { Name := "ns.".data, TTL := 1, Class := "IN".data, Typ := "NS".data, Data := "y".data }]
      (by decide)).1
    rw [h]
    decide

end Zonefmt
